import Mathlib

/-!
Verification of the driver-normalization and relationship-integrity layer of
the `cloudflaredb` repository: a shallow embedding of the row scanners
(`internal/repository/scanner.go` and its `external_id` revision), the value
normalizer (`NullableTime.Scan`, `parseTimeValue`), and the repository
operations over users, rooms, room types and the `user_rooms` join table
(`room_repository.go`, `user_repository.go`, `room_type_repository.go`,
schema from `migrations/`).

Machine integers are modelled as `Int`/`Nat`; `float64` wire values are
modelled by the integral value they carry (the only float shape either
backend produces for these columns), with the `int64 → float64` driver
conversion modelled explicitly by IEEE-754 round-to-nearest-even at 53
bits of precision.
-/

namespace CloudflareDB

deriving instance DecidableEq for Except

/-! ### Go `time.Time` values and the timestamp formats of `scanner.go`

`GoTime` models a parsed `time.Time`: calendar fields plus a
timezone offset in minutes east of UTC.  `GoTime.zero` is Go's zero
`time.Time{}` (January 1, year 1, 00:00:00 UTC). -/

structure GoTime where
  year : Nat
  month : Nat
  day : Nat
  hour : Nat
  minute : Nat
  second : Nat
  nanos : Nat
  tzMinutes : Int
  deriving DecidableEq, Repr

/-- Go's zero `time.Time{}`: January 1 of year 1, midnight UTC. -/
def GoTime.zero : GoTime := ⟨1, 1, 1, 0, 0, 0, 0, 0⟩

/-- Read exactly `k` decimal digits, returning their value and the rest. -/
def readDigits : Nat → Nat → List Char → Option (Nat × List Char)
  | 0, acc, cs => some (acc, cs)
  | k + 1, acc, c :: cs =>
      if c.isDigit then readDigits k (acc * 10 + (c.toNat - 48)) cs else none
  | _ + 1, _, [] => none

/-- Expect one specific character. -/
def expectChar (c : Char) : List Char → Option (List Char)
  | d :: cs => if d = c then some cs else none
  | [] => none

/-- Read one or two decimal digits, as Go's `getnum(value, false)` does
for the unpadded `15` hour layout element. -/
def read1or2Digits : List Char → Option (Nat × List Char)
  | c1 :: c2 :: cs =>
      if c1.isDigit then
        if c2.isDigit then some ((c1.toNat - 48) * 10 + (c2.toNat - 48), cs)
        else some (c1.toNat - 48, c2 :: cs)
      else none
  | [c1] => if c1.isDigit then some (c1.toNat - 48, []) else none
  | [] => none

/-- Consume every consecutive digit, accumulating the value of the first
nine only (Go's `parseNanoseconds` caps at nine significant digits);
returns value, total digit count, rest. -/
def fracDigits : Nat → Nat → List Char → Nat × Nat × List Char
  | acc, cnt, c :: cs =>
      if c.isDigit then
        fracDigits (if cnt < 9 then acc * 10 + (c.toNat - 48) else acc) (cnt + 1) cs
      else (acc, cnt, c :: cs)
  | acc, cnt, [] => (acc, cnt, [])

/-- Optional fractional seconds: Go's `time.Parse` accepts a fractional
second after the seconds field even when the layout has none, introduced
by a period or (since Go 1.17) a comma and followed by at least one
digit.  Every consecutive digit is consumed; only the first nine are
significant — Go truncates an over-long fraction rather than rejecting
it. -/
def readFrac : List Char → Nat × List Char
  | sep :: c :: cs =>
      if (sep = '.' ∨ sep = ',') ∧ c.isDigit then
        let (v, cnt, rest) := fracDigits 0 0 (c :: cs)
        (v * 10 ^ (9 - min cnt 9), rest)
      else (0, sep :: c :: cs)
  | cs => (0, cs)

/-- Timezone suffix of the `Z07:00` layout element: `Z` or `±hh:mm` with
two digits each.  Go's lenient parser performs no range check on the
offset digits, so none is modelled. -/
def readTZ : List Char → Option (Int × List Char)
  | 'Z' :: cs => some (0, cs)
  | c :: cs =>
      if c = '+' ∨ c = '-' then do
        let (hh, cs) ← readDigits 2 0 cs
        let cs ← expectChar ':' cs
        let (mm, cs) ← readDigits 2 0 cs
        let v : Int := hh * 60 + mm
        some (if c = '-' then -v else v, cs)
      else none
  | [] => none

/-- Whether `y` is a leap year (proleptic Gregorian, as in Go). -/
def isLeap (y : Nat) : Bool := (y % 4 = 0 && y % 100 ≠ 0) || y % 400 = 0

/-- Days in month `m` of year `y`. -/
def daysInMonth (y m : Nat) : Nat :=
  if m = 2 then (if isLeap y then 29 else 28)
  else if m = 4 ∨ m = 6 ∨ m = 9 ∨ m = 11 then 30
  else 31

def validDate (y m d : Nat) : Bool :=
  1 ≤ m && m ≤ 12 && 1 ≤ d && d ≤ daysInMonth y m

def validClock (h mi s : Nat) : Bool := h < 24 && mi < 60 && s < 60

/-- Go's `time.Parse` (the lenient general parser of the pinned Go
toolchain) restricted to the layouts `scanner.go` uses: a `2006-01-02`
date, a separator (`T` or space), a `15:04:05` clock whose hour element
parses one or two digits (the `15` chunk is unpadded on input), an
optional fractional second, and, when `withTZ` is set (the RFC3339
layouts), a mandatory `Z07:00` timezone.  Calendar and clock ranges are
validated as Go does (month/day against the month length, hour below 24,
minute and second below 60); layouts without a timezone yield UTC, as in
Go. -/
def goTimeParse (sep : Char) (withTZ : Bool) (s : String) : Option GoTime := do
  let cs := s.toList
  let (y, cs) ← readDigits 4 0 cs
  let cs ← expectChar '-' cs
  let (mo, cs) ← readDigits 2 0 cs
  let cs ← expectChar '-' cs
  let (d, cs) ← readDigits 2 0 cs
  let cs ← expectChar sep cs
  let (h, cs) ← read1or2Digits cs
  let cs ← expectChar ':' cs
  let (mi, cs) ← readDigits 2 0 cs
  let cs ← expectChar ':' cs
  let (sec, cs) ← readDigits 2 0 cs
  let (ns, cs) := readFrac cs
  let (tz, cs) ← if withTZ then readTZ cs else some ((0 : Int), cs)
  if cs = [] ∧ validDate y mo d ∧ validClock h mi sec then
    some ⟨y, mo, d, h, mi, sec, ns, tz⟩
  else none

/-- The format list of `NullableTime.Scan` and `parseTimeValue`, in source
order: `time.RFC3339`, `time.RFC3339Nano`, `"2006-01-02 15:04:05"`,
`"2006-01-02T15:04:05"`, and the two explicit-fraction variants.  When
parsing, Go treats the fractional second (period- or comma-introduced) as
optional in every one of these layouts — both through the no-fraction
special case after the seconds field and through the `.999999999` chunk —
so consecutive entries share an acceptance set. -/
def timestampFormats : List (String → Option GoTime) :=
  [goTimeParse 'T' true, goTimeParse 'T' true,
   goTimeParse ' ' false, goTimeParse 'T' false,
   goTimeParse ' ' false, goTimeParse 'T' false]

/-- The `for _, format := range formats` loop: first successful parse wins. -/
def parseWithFormats : List (String → Option GoTime) → String → Option GoTime
  | [], _ => none
  | f :: fs, s =>
      match f s with
      | some t => some t
      | none => parseWithFormats fs s

/-- `tryFormats s` is the shared parsing loop body of `NullableTime.Scan`
and `parseTimeValue` applied to the six-format list. -/
def tryFormats (s : String) : Option GoTime := parseWithFormats timestampFormats s

/-! ### Wire values and the `int64 → float64` driver conversion

A `Wire` value is the raw driver representation of one column value
before normalization.  SQLite produces `int` (as Go `int64`), `str`,
`bytes` and native `time` values; the Cloudflare D1 driver produces
`float` (every number arrives as a `float64`), `str` and `null`.
`Wire.float` carries the integral value of the float — the only float
shape these columns ever carry. -/

inductive Wire where
  | null
  | int (n : Int)
  | float (n : Int)
  | str (s : String)
  | bytes (s : String)
  | time (t : GoTime)
  deriving DecidableEq, Repr

/-- Number of binary digits of `n`, computed with 64 units of fuel
(exact for every `n < 2 ^ 64`, hence for every `int64` magnitude). -/
def bitLenAux : Nat → Nat → Nat
  | 0, _ => 0
  | fuel + 1, n => if n = 0 then 0 else bitLenAux fuel (n / 2) + 1

def bitLen64 (n : Nat) : Nat := bitLenAux 64 n

/-- IEEE-754 binary64 rounding of a natural number to 53 significant bits,
round-to-nearest ties-to-even.  This is the value computed by Go's
`float64(n)` conversion for `0 ≤ n < 2 ^ 63`. -/
def rne53 (n : Nat) : Nat :=
  let b := bitLen64 n
  if b ≤ 53 then n
  else
    let k := b - 53
    let q := n / 2 ^ k
    let r := n % 2 ^ k
    let h := 2 ^ (k - 1)
    let q' := if h < r ∨ (r = h ∧ q % 2 = 1) then q + 1 else q
    q' * 2 ^ k

/-- The `int64 → float64` conversion performed by the driver stack when a
native integer is scanned into a `float64` destination: the resulting
(integral) float value. -/
def f64ofInt (n : Int) : Int :=
  if n < 0 then -(rne53 n.natAbs : Int) else (rne53 n.natAbs : Int)

/-- `n` is exactly representable as an IEEE-754 binary64 value, i.e. its
magnitude is `m * 2 ^ e` with `m < 2 ^ 53` (the exponent bound 64 covers
every `int64`). -/
def isRepr64 (n : Int) : Bool :=
  n.natAbs < 2 ^ 53 ||
    (List.range 64).any fun e =>
      n.natAbs % 2 ^ e == 0 && n.natAbs / 2 ^ e < 2 ^ 53

/-! ### The value normalizer: `NullableTime` and `parseTimeValue` -/

/-- Scan-level failures, standing for the `error` values the Go scanners
return (`fmt.Errorf` strings in the source). -/
inductive ScanErr where
  /-- `"failed to parse timestamp string: %s"` from `NullableTime.Scan`. -/
  | parseTimestamp (s : String)
  /-- `"unsupported type for NullableTime: %T"` from `NullableTime.Scan`. -/
  | unsupportedTime
  /-- a conversion error raised by `database/sql` while scanning into a
  typed destination (wrong shape for a `*float64` or `*string` target). -/
  | convert
  /-- destination-count mismatch raised by `Rows.Scan`. -/
  | arity
  deriving DecidableEq, Repr

/-- `NullableTime` from `scanner.go`: a time value plus a validity flag. -/
structure NullableTime where
  time : GoTime := GoTime.zero
  valid : Bool := false
  deriving DecidableEq, Repr

/-- `NullableTime.Scan` from `scanner.go`: `nil` clears the flag; a native
time is taken as is; a string is parsed against the six formats, failure
being an error; a byte string is scanned as a string; anything else is an
unsupported-type error. -/
def NullableTime.scan : Wire → Except ScanErr NullableTime
  | .null => .ok { valid := false }
  | .time t => .ok { time := t, valid := true }
  | .str s =>
      match tryFormats s with
      | some t => .ok { time := t, valid := true }
      | none => .error (.parseTimestamp s)
  | .bytes s =>
      match tryFormats s with
      | some t => .ok { time := t, valid := true }
      | none => .error (.parseTimestamp s)
  | _ => .error .unsupportedTime

/-- `parseTimeValue` from `scanner.go`: a native time is returned as is, a
string is parsed against the six formats, and every other case — including
a byte string and a failed parse — silently yields the zero time. -/
def parseTimeValue : Wire → GoTime
  | .time t => t
  | .str s =>
      match tryFormats s with
      | some t => t
      | none => GoTime.zero
  | _ => GoTime.zero

/-- `database/sql` conversion into a `*float64` destination: a native
integer is converted through IEEE rounding, a float passes through.
Other shapes occurring in this system are conversion errors. -/
def scanToFloat : Wire → Except ScanErr Int
  | .int n => .ok (f64ofInt n)
  | .float n => .ok n
  | _ => .error .convert

/-- `database/sql` conversion into a `*string` destination for the string
columns of this system. -/
def scanToString : Wire → Except ScanErr String
  | .str s => .ok s
  | .bytes s => .ok s
  | _ => .error .convert

/-! ### The row scanner, `scanner.go` revision (users with email and name)

A result-row handle either can report its column names (`*sql.Rows`,
modelled as a list of column-name/value pairs) or cannot (`*sql.Row`,
values only, in `SELECT` order).  `scanUser` dispatches on that
capability exactly as the Go type assertion `scanner.(ColumnScanner)`
does. -/

inductive Handle where
  /-- a handle that reports column names (`*sql.Rows`). -/
  | rows (row : List (String × Wire))
  /-- a positional handle (`*sql.Row`), values in declared order. -/
  | row (vals : List Wire)
  deriving DecidableEq, Repr

/-- A scanned user record (`models.User`, email/name revision); fields
start at their Go zero values. -/
structure UserRec where
  id : Int := 0
  email : String := ""
  name : String := ""
  createdAt : GoTime := GoTime.zero
  updatedAt : GoTime := GoTime.zero
  deriving DecidableEq, Repr

/-- One iteration of the column-mapping loop of `scanUserWithColumns`
(`scanner.go`): skip `nil`, then dispatch on the column name; the `id`
case accepts only a `float64`, the string cases only a `string`, the
timestamp cases go through `parseTimeValue`; unknown columns and
unexpected shapes are ignored. -/
def applyUserCol (acc : UserRec) (cv : String × Wire) : UserRec :=
  match cv.2 with
  | .null => acc
  | v =>
      if cv.1 = "id" then
        match v with
        | .float f => { acc with id := f }
        | _ => acc
      else if cv.1 = "email" then
        match v with
        | .str s => { acc with email := s }
        | _ => acc
      else if cv.1 = "name" then
        match v with
        | .str s => { acc with name := s }
        | _ => acc
      else if cv.1 = "created_at" then { acc with createdAt := parseTimeValue v }
      else if cv.1 = "updated_at" then { acc with updatedAt := parseTimeValue v }
      else acc

/-- `scanUserWithColumns` from `scanner.go`: scan every column into an
untyped slot, then map each slot to the matching field by column name. -/
def scanUserWithColumns (init : UserRec) (row : List (String × Wire)) : UserRec :=
  row.foldl applyUserCol init

/-- The position-based fallback branch of `scanUser` (`scanner.go`):
column order `id, email, name, created_at, updated_at` is assumed, the id
is scanned into a `float64` and truncated to `int64`, and the timestamps
go through `NullableTime` (assigned only when valid). -/
def scanUserPositional (init : UserRec) : List Wire → Except ScanErr UserRec
  | [w1, w2, w3, w4, w5] => do
      let idF ← scanToFloat w1
      let email ← scanToString w2
      let name ← scanToString w3
      let cNT ← NullableTime.scan w4
      let uNT ← NullableTime.scan w5
      .ok { id := idF, email := email, name := name,
            createdAt := if cNT.valid then cNT.time else init.createdAt,
            updatedAt := if uNT.valid then uNT.time else init.updatedAt }
  | _ => .error .arity

/-- `scanUser` from `scanner.go`: name-indexed scanning whenever the
handle reports column names, the positional fallback otherwise. -/
def scanUser : Handle → Except ScanErr UserRec
  | .rows r => .ok (scanUserWithColumns {} r)
  | .row vals => scanUserPositional {} vals

/-! ### The row scanner, `external_id` revision (`src/unnamed/part_003`) -/

namespace Ext

/-- `models.User` of the `external_id` revision. -/
structure UserRec where
  id : Int := 0
  externalID : String := ""
  createdAt : GoTime := GoTime.zero
  updatedAt : GoTime := GoTime.zero
  deriving DecidableEq, Repr

/-- `models.Room` of the `external_id` revision: the RoomType reference is
optional (`*int64`), zero value `nil`. -/
structure RoomRec where
  id : Int := 0
  name : String := ""
  description : String := ""
  roomTypeId : Option Int := none
  createdAt : GoTime := GoTime.zero
  updatedAt : GoTime := GoTime.zero
  deriving DecidableEq, Repr

/-- Column mapping of `scanUserWithColumns` (`part_003`): the `id` case
accepts `float64` and the native integer shapes, `external_id` a string,
timestamps via `parseTimeValue`. -/
def applyUserCol (acc : UserRec) (cv : String × Wire) : UserRec :=
  match cv.2 with
  | .null => acc
  | v =>
      if cv.1 = "id" then
        match v with
        | .float f => { acc with id := f }
        | .int n => { acc with id := n }
        | _ => acc
      else if cv.1 = "external_id" then
        match v with
        | .str s => { acc with externalID := s }
        | _ => acc
      else if cv.1 = "created_at" then { acc with createdAt := parseTimeValue v }
      else if cv.1 = "updated_at" then { acc with updatedAt := parseTimeValue v }
      else acc

def scanUserWithColumns (init : UserRec) (row : List (String × Wire)) : UserRec :=
  row.foldl applyUserCol init

/-- Positional fallback of the `external_id` `scanUser`: column order
`id, external_id, created_at, updated_at`, the id routed through a
`float64` slot. -/
def scanUserPositional (init : UserRec) : List Wire → Except ScanErr UserRec
  | [w1, w2, w3, w4] => do
      let idF ← scanToFloat w1
      let ext ← scanToString w2
      let cNT ← NullableTime.scan w3
      let uNT ← NullableTime.scan w4
      .ok { id := idF, externalID := ext,
            createdAt := if cNT.valid then cNT.time else init.createdAt,
            updatedAt := if uNT.valid then uNT.time else init.updatedAt }
  | _ => .error .arity

def scanUser : Handle → Except ScanErr UserRec
  | .rows r => .ok (scanUserWithColumns {} r)
  | .row vals => scanUserPositional {} vals

/-- Column mapping of `scanRoomWithColumns` (`part_003`): `id` and
`room_type_id` accept `float64` and the native integer shapes (a `nil`
`room_type_id` is skipped, leaving the reference absent), strings for
`name`/`description`, timestamps via `parseTimeValue`. -/
def applyRoomCol (acc : RoomRec) (cv : String × Wire) : RoomRec :=
  match cv.2 with
  | .null => acc
  | v =>
      if cv.1 = "id" then
        match v with
        | .float f => { acc with id := f }
        | .int n => { acc with id := n }
        | _ => acc
      else if cv.1 = "name" then
        match v with
        | .str s => { acc with name := s }
        | _ => acc
      else if cv.1 = "description" then
        match v with
        | .str s => { acc with description := s }
        | _ => acc
      else if cv.1 = "room_type_id" then
        match v with
        | .float f => { acc with roomTypeId := some f }
        | .int n => { acc with roomTypeId := some n }
        | _ => acc
      else if cv.1 = "created_at" then { acc with createdAt := parseTimeValue v }
      else if cv.1 = "updated_at" then { acc with updatedAt := parseTimeValue v }
      else acc

def scanRoomWithColumns (init : RoomRec) (row : List (String × Wire)) : RoomRec :=
  row.foldl applyRoomCol init

/-- Positional fallback of the `external_id` `scanRoom` (`part_003`,
second revision): column order `id, name, description, room_type_id,
created_at, updated_at`; the `room_type_id` slot is an untyped
`interface{}` and only a `float64` value is assigned — a non-nil value of
any other shape (including a native `int64`) is ignored, leaving the
reference absent. -/
def scanRoomPositional (init : RoomRec) : List Wire → Except ScanErr RoomRec
  | [w1, w2, w3, w4, w5, w6] => do
      let idF ← scanToFloat w1
      let name ← scanToString w2
      let desc ← scanToString w3
      let cNT ← NullableTime.scan w5
      let uNT ← NullableTime.scan w6
      .ok { id := idF, name := name, description := desc,
            roomTypeId :=
              match w4 with
              | .float f => some f
              | _ => init.roomTypeId,
            createdAt := if cNT.valid then cNT.time else init.createdAt,
            updatedAt := if uNT.valid then uNT.time else init.updatedAt }
  | _ => .error .arity

def scanRoom : Handle → Except ScanErr RoomRec
  | .rows r => .ok (scanRoomWithColumns {} r)
  | .row vals => scanRoomPositional {} vals

end Ext

/-! ### Repository state and errors

The database state is the content of the three tables involved in the
relationship claims.  Storage-level constraints come from
`migrations/002_create_rooms_table.sql`: `UNIQUE(user_id, room_id)` on
`user_rooms` plus the two foreign keys. -/

/-- `models.Room` of the email/name revision (`capacity` column). -/
structure RoomRec where
  id : Int := 0
  name : String := ""
  description : String := ""
  capacity : Int := 0
  createdAt : GoTime := GoTime.zero
  updatedAt : GoTime := GoTime.zero
  deriving DecidableEq, Repr

/-- One row of the `user_rooms` join table. -/
structure UserRoomRec where
  userId : Int
  roomId : Int
  createdAt : GoTime
  deriving DecidableEq, Repr

/-- Database state for the user/room/join-table operations. -/
structure DB where
  users : List UserRec := []
  rooms : List RoomRec := []
  userRooms : List UserRoomRec := []
  deriving DecidableEq, Repr

/-- Constraint violations reported by the storage engine. -/
inductive DbErr where
  | uniqueViolation
  | fkViolation
  deriving DecidableEq, Repr

/-- Errors returned by the repository methods; each constructor stands for
one `fmt.Errorf` message of the source. -/
inductive RepoErr where
  /-- `"room not found"`. -/
  | roomNotFound
  /-- `"user not found"`. -/
  | userNotFound
  /-- `"room type not found"`. -/
  | roomTypeNotFound
  /-- `"user already assigned to this room"`. -/
  | alreadyAssigned
  /-- `"user not assigned to this room"`. -/
  | notAssigned
  /-- `"failed to <op>: %w"` wrapping a storage error. -/
  | execFailed (op : String) (e : DbErr)
  deriving DecidableEq, Repr

/-- The error taxonomy of the specification (§7).  Modelled from the spec:
the source classifies errors only by substring matching on message text in
the HTTP layer, so the kind of each repository error follows the spec's
taxonomy — not-found lookups are `NotFound`, uniqueness violations
(duplicate external identifier, duplicate assignment pair) are `Conflict`,
and other storage faults are `InternalError`. -/
inductive ErrKind where
  | notFound
  | conflict
  | validation
  | internalError
  deriving DecidableEq, Repr

/-- Classification of each repository error under the spec's taxonomy. -/
def RepoErr.kind : RepoErr → ErrKind
  | .roomNotFound => .notFound
  | .userNotFound => .notFound
  | .roomTypeNotFound => .notFound
  | .alreadyAssigned => .conflict
  | .notAssigned => .notFound
  | .execFailed _ .uniqueViolation => .conflict
  | .execFailed _ .fkViolation => .internalError

def userExistsB (s : DB) (uid : Int) : Bool := s.users.any fun u => u.id == uid

def roomExistsB (s : DB) (rid : Int) : Bool := s.rooms.any fun r => r.id == rid

/-- `SELECT COUNT(*) FROM user_rooms WHERE user_id = ? AND room_id = ?`. -/
def pairCount (s : DB) (u r : Int) : Nat :=
  (s.userRooms.filter fun p => p.userId == u && p.roomId == r).length

/-- `INSERT INTO user_rooms (user_id, room_id, created_at) VALUES (?,?,?)`
executed by the storage engine, which enforces the schema of migration 002:
the `UNIQUE(user_id, room_id)` constraint and the two foreign keys.  The
row is appended; a violated constraint rejects the statement. -/
def insertUserRoom (s : DB) (u r : Int) (t : GoTime) : Except DbErr DB :=
  if s.userRooms.any (fun p => p.userId == u && p.roomId == r) then
    .error .uniqueViolation
  else if !userExistsB s u then .error .fkViolation
  else if !roomExistsB s r then .error .fkViolation
  else .ok { s with userRooms := s.userRooms ++ [⟨u, r, t⟩] }

namespace RoomRepository

/-- `AssignUserToRoom` from `room_repository.go`: count the existing rows
for the pair, reject with the already-assigned error when positive,
otherwise run the insert and wrap any storage error. -/
def AssignUserToRoom (s : DB) (userId roomId : Int) (now : GoTime) :
    Except RepoErr DB :=
  let count := pairCount s userId roomId
  if count > 0 then .error .alreadyAssigned
  else
    match insertUserRoom s userId roomId now with
    | .ok s' => .ok s'
    | .error e => .error (.execFailed "assign user to room" e)

/-- Room ordering used by `ORDER BY r.name`. -/
def roomLe (a b : RoomRec) : Prop := a.name ≤ b.name

instance : DecidableRel roomLe := fun a b =>
  decidable_of_iff (a.name.toList ≤ b.name.toList) String.le_iff_toList_le.symm

instance : IsTotal RoomRec roomLe := ⟨fun a b => le_total a.name b.name⟩

instance : IsTrans RoomRec roomLe := ⟨fun _ _ _ h h2 => le_trans h h2⟩

/-- User ordering used by `ORDER BY u.name`. -/
def userLe (a b : UserRec) : Prop := a.name ≤ b.name

instance : DecidableRel userLe := fun a b =>
  decidable_of_iff (a.name.toList ≤ b.name.toList) String.le_iff_toList_le.symm

instance : IsTotal UserRec userLe := ⟨fun a b => le_total a.name b.name⟩

instance : IsTrans UserRec userLe := ⟨fun _ _ _ h h2 => le_trans h h2⟩

/-- `GetUserRooms`: rooms joined through `user_rooms` for the user,
`ORDER BY r.name`. -/
def GetUserRooms (s : DB) (userId : Int) : List RoomRec :=
  List.insertionSort roomLe
    (s.rooms.filter fun r =>
      s.userRooms.any fun p => p.userId == userId && p.roomId == r.id)

/-- `GetByID` from `room_repository.go`: first row with the id, or the
room-not-found error. -/
def GetByID (s : DB) (id : Int) : Except RepoErr RoomRec :=
  match s.rooms.find? (fun r => r.id == id) with
  | some r => .ok r
  | none => .error .roomNotFound

/-- `models.RoomWithUsers`. -/
structure RoomWithUsers where
  room : RoomRec
  users : List UserRec
  deriving DecidableEq, Repr

/-- `GetRoomWithUsers` from `room_repository.go`: fetch the room (its
not-found error propagates unchanged), then the users joined through
`user_rooms`, `ORDER BY u.name`. -/
def GetRoomWithUsers (s : DB) (roomId : Int) : Except RepoErr RoomWithUsers :=
  match GetByID s roomId with
  | .error e => .error e
  | .ok room =>
      .ok ⟨room,
        List.insertionSort userLe
          (s.users.filter fun u =>
            s.userRooms.any fun p => p.roomId == roomId && p.userId == u.id)⟩

/-- `models.UpdateRoomRequest`; absent JSON fields decode to zero values. -/
structure UpdateRoomRequest where
  name : String := ""
  description : String := ""
  capacity : Int := 0
  deriving DecidableEq, Repr

/-- The row transformation of the `UPDATE rooms SET ...` statement:
`COALESCE(NULLIF(?, ''), col)` keeps the old value for an empty-string
parameter, `CASE WHEN ? > 0 THEN ? ELSE capacity END` keeps the old
capacity for a non-positive parameter, and `updated_at` is always set. -/
def applyRoomUpdate (req : UpdateRoomRequest) (now : GoTime) (r : RoomRec) : RoomRec :=
  { r with
    name := if req.name = "" then r.name else req.name,
    description := if req.description = "" then r.description else req.description,
    capacity := if req.capacity > 0 then req.capacity else r.capacity,
    updatedAt := now }

/-- `Update` from `room_repository.go`: run the update statement over the
matching rows, report the room-not-found error when zero rows were
affected, otherwise re-read the row by id. -/
def Update (s : DB) (id : Int) (req : UpdateRoomRequest) (now : GoTime) :
    Except RepoErr (RoomRec × DB) :=
  let rooms' := s.rooms.map fun r => if r.id == id then applyRoomUpdate req now r else r
  let affected := (s.rooms.filter fun r => r.id == id).length
  if affected == 0 then .error .roomNotFound
  else
    let s' := { s with rooms := rooms' }
    match GetByID s' id with
    | .ok r => .ok (r, s')
    | .error e => .error e

end RoomRepository

namespace Ext

/-- `models.RoomType`. -/
structure RoomTypeRec where
  id : Int := 0
  size : String := ""
  style : String := ""
  createdAt : GoTime := GoTime.zero
  updatedAt : GoTime := GoTime.zero
  deriving DecidableEq, Repr

/-- Database state for the RoomType claims (`external_id` revision schema:
rooms carry an optional `room_type_id`). -/
structure DB where
  rooms : List RoomRec := []
  roomTypes : List RoomTypeRec := []
  deriving DecidableEq, Repr

namespace RoomTypeRepository

/-- `RoomTypeRepository.Delete`: `DELETE FROM room_types WHERE id = ?`,
reporting the not-found error when zero rows were affected.  The storage
engine applies the schema's `FOREIGN KEY (room_type_id) REFERENCES
room_types(id) ON DELETE SET NULL` (migration 002, `external_id`
revision): every room referencing the deleted type has its reference
cleared. -/
def Delete (s : DB) (id : Int) : Except RepoErr DB :=
  let affected := (s.roomTypes.filter fun t => t.id == id).length
  if affected == 0 then .error .roomTypeNotFound
  else
    .ok { s with
      roomTypes := s.roomTypes.filter fun t => !(t.id == id),
      rooms := s.rooms.map fun r =>
        if r.roomTypeId == some id then { r with roomTypeId := none } else r }

end RoomTypeRepository

namespace RoomRepository

/-- `GetByID` of the `external_id` room repository: first row with the id,
or the room-not-found error. -/
def GetByID (s : DB) (id : Int) : Except RepoErr RoomRec :=
  match s.rooms.find? (fun r => r.id == id) with
  | some r => .ok r
  | none => .error .roomNotFound

end RoomRepository

end Ext

/-! ### Field lemmas for the name-indexed user scanner

For each struct field, one lemma saying a step keyed on a different
column leaves the field alone, and one computing the field written by a
step keyed on its own column. -/

set_option linter.unreachableTactic false

set_option linter.unusedTactic false

attribute [ext] UserRec

theorem applyUserCol_id_ne {cv : String × Wire} (h : cv.1 ≠ "id") (acc : UserRec) :
    (applyUserCol acc cv).id = acc.id := by
  obtain ⟨c, v⟩ := cv
  simp only at h
  cases v <;> simp only [applyUserCol] <;> split_ifs <;>
    first | rfl | exact absurd (by assumption) h

theorem applyUserCol_id_eq {cv : String × Wire} (h : cv.1 = "id") (acc : UserRec) :
    (applyUserCol acc cv).id =
      match cv.2 with
      | .float f => f
      | _ => acc.id := by
  obtain ⟨c, v⟩ := cv
  simp only at h
  subst h
  cases v <;> simp only [applyUserCol] <;> split_ifs <;> first | rfl | simp_all

theorem applyUserCol_email_ne {cv : String × Wire} (h : cv.1 ≠ "email") (acc : UserRec) :
    (applyUserCol acc cv).email = acc.email := by
  obtain ⟨c, v⟩ := cv
  simp only at h
  cases v <;> simp only [applyUserCol] <;> split_ifs <;>
    first | rfl | exact absurd (by assumption) h

theorem applyUserCol_email_eq {cv : String × Wire} (h : cv.1 = "email") (acc : UserRec) :
    (applyUserCol acc cv).email =
      match cv.2 with
      | .str s => s
      | _ => acc.email := by
  obtain ⟨c, v⟩ := cv
  simp only at h
  subst h
  cases v <;> simp only [applyUserCol] <;> split_ifs <;> first | rfl | simp_all

theorem applyUserCol_name_ne {cv : String × Wire} (h : cv.1 ≠ "name") (acc : UserRec) :
    (applyUserCol acc cv).name = acc.name := by
  obtain ⟨c, v⟩ := cv
  simp only at h
  cases v <;> simp only [applyUserCol] <;> split_ifs <;>
    first | rfl | exact absurd (by assumption) h

theorem applyUserCol_name_eq {cv : String × Wire} (h : cv.1 = "name") (acc : UserRec) :
    (applyUserCol acc cv).name =
      match cv.2 with
      | .str s => s
      | _ => acc.name := by
  obtain ⟨c, v⟩ := cv
  simp only at h
  subst h
  cases v <;> simp only [applyUserCol] <;> split_ifs <;> first | rfl | simp_all

theorem applyUserCol_created_ne {cv : String × Wire} (h : cv.1 ≠ "created_at")
    (acc : UserRec) : (applyUserCol acc cv).createdAt = acc.createdAt := by
  obtain ⟨c, v⟩ := cv
  simp only at h
  cases v <;> simp only [applyUserCol] <;> split_ifs <;>
    first | rfl | exact absurd (by assumption) h

theorem applyUserCol_created_eq {cv : String × Wire} (h : cv.1 = "created_at")
    (acc : UserRec) :
    (applyUserCol acc cv).createdAt =
      match cv.2 with
      | .null => acc.createdAt
      | v => parseTimeValue v := by
  obtain ⟨c, v⟩ := cv
  simp only at h
  subst h
  cases v <;> simp only [applyUserCol] <;> split_ifs <;> first | rfl | simp_all

theorem applyUserCol_updated_ne {cv : String × Wire} (h : cv.1 ≠ "updated_at")
    (acc : UserRec) : (applyUserCol acc cv).updatedAt = acc.updatedAt := by
  obtain ⟨c, v⟩ := cv
  simp only at h
  cases v <;> simp only [applyUserCol] <;> split_ifs <;>
    first | rfl | exact absurd (by assumption) h

theorem applyUserCol_updated_eq {cv : String × Wire} (h : cv.1 = "updated_at")
    (acc : UserRec) :
    (applyUserCol acc cv).updatedAt =
      match cv.2 with
      | .null => acc.updatedAt
      | v => parseTimeValue v := by
  obtain ⟨c, v⟩ := cv
  simp only at h
  subst h
  cases v <;> simp only [applyUserCol] <;> split_ifs <;> first | rfl | simp_all

/-- Two column-mapping steps keyed on distinct column names commute: they
write disjoint fields of the record. -/
theorem applyUserCol_comm (acc : UserRec) (x y : String × Wire) (h : x.1 ≠ y.1) :
    applyUserCol (applyUserCol acc x) y = applyUserCol (applyUserCol acc y) x := by
  have hne : ∀ c, x.1 = c → y.1 ≠ c := fun c hx hc => h (hx.trans hc.symm)
  refine UserRec.ext ?_ ?_ ?_ ?_ ?_
  · by_cases hx : x.1 = "id"
    · simp only [applyUserCol_id_ne (hne _ hx), applyUserCol_id_eq hx]
    · by_cases hy : y.1 = "id"
      · simp only [applyUserCol_id_ne hx, applyUserCol_id_eq hy]
      · simp only [applyUserCol_id_ne hx, applyUserCol_id_ne hy]
  · by_cases hx : x.1 = "email"
    · simp only [applyUserCol_email_ne (hne _ hx), applyUserCol_email_eq hx]
    · by_cases hy : y.1 = "email"
      · simp only [applyUserCol_email_ne hx, applyUserCol_email_eq hy]
      · simp only [applyUserCol_email_ne hx, applyUserCol_email_ne hy]
  · by_cases hx : x.1 = "name"
    · simp only [applyUserCol_name_ne (hne _ hx), applyUserCol_name_eq hx]
    · by_cases hy : y.1 = "name"
      · simp only [applyUserCol_name_ne hx, applyUserCol_name_eq hy]
      · simp only [applyUserCol_name_ne hx, applyUserCol_name_ne hy]
  · by_cases hx : x.1 = "created_at"
    · simp only [applyUserCol_created_ne (hne _ hx), applyUserCol_created_eq hx]
    · by_cases hy : y.1 = "created_at"
      · simp only [applyUserCol_created_ne hx, applyUserCol_created_eq hy]
      · simp only [applyUserCol_created_ne hx, applyUserCol_created_ne hy]
  · by_cases hx : x.1 = "updated_at"
    · simp only [applyUserCol_updated_ne (hne _ hx), applyUserCol_updated_eq hx]
    · by_cases hy : y.1 = "updated_at"
      · simp only [applyUserCol_updated_ne hx, applyUserCol_updated_eq hy]
      · simp only [applyUserCol_updated_ne hx, applyUserCol_updated_ne hy]

/-- Name-indexed scanning is invariant under permutation of the columns as
long as the column names are distinct. -/
theorem scanUserWithColumns_perm (init : UserRec) {l1 l2 : List (String × Wire)}
    (hnd : (l1.map Prod.fst).Nodup) (hp : l1.Perm l2) :
    scanUserWithColumns init l1 = scanUserWithColumns init l2 := by
  unfold scanUserWithColumns
  refine hp.foldl_eq' ?_ init
  intro x hx y hy z
  by_cases hxy : x = y
  · subst hxy; rfl
  · exact applyUserCol_comm z x y
      (fun hfst => hxy (List.inj_on_of_nodup_map hnd hx hy hfst))

/-! ### Claims C2, C3, C4, C5: the row scanner and value normalizer -/

/-- Claim C2: for every row whose handle can report column names, the Row
Scanner uses name-indexed scanning, and every permutation of the row's
columns yields the same fully field-mapped record, each value landing in
the field whose name matches the column name; positional scanning is used
only for a handle without column names. -/
theorem claimC2_name_indexed_order_invariant
    (l : List (String × Wire)) (i : Int) (e n : String) (c u : GoTime)
    (hp : l.Perm [("id", Wire.float i), ("email", Wire.str e), ("name", Wire.str n),
      ("created_at", Wire.time c), ("updated_at", Wire.time u)]) :
    scanUser (Handle.rows l) =
      .ok { id := i, email := e, name := n, createdAt := c, updatedAt := u } ∧
    (∀ r, scanUser (Handle.rows r) = .ok (scanUserWithColumns {} r)) ∧
    (∀ vals, scanUser (Handle.row vals) = scanUserPositional {} vals) := by
  refine ⟨?_, fun r => rfl, fun vals => rfl⟩
  have hnd : (l.map Prod.fst).Nodup := by
    rw [(hp.map Prod.fst).nodup_iff]
    show (["id", "email", "name", "created_at", "updated_at"] : List String).Nodup
    decide
  show Except.ok (scanUserWithColumns {} l) = _
  rw [scanUserWithColumns_perm {} hnd hp]
  rfl

/-- Witness for C2: a concrete out-of-order row maps every value to the
right field. -/
theorem claimC2_witness :
    ([(("updated_at" : String), Wire.time GoTime.zero), ("name", Wire.str "N"),
      ("id", Wire.float 7), ("created_at", Wire.time GoTime.zero),
      ("email", Wire.str "E")].Perm
      [("id", Wire.float 7), ("email", Wire.str "E"), ("name", Wire.str "N"),
       ("created_at", Wire.time GoTime.zero), ("updated_at", Wire.time GoTime.zero)]) ∧
    scanUser (Handle.rows
      [("updated_at", Wire.time GoTime.zero), ("name", Wire.str "N"),
       ("id", Wire.float 7), ("created_at", Wire.time GoTime.zero),
       ("email", Wire.str "E")]) =
      .ok { id := 7, email := "E", name := "N",
            createdAt := GoTime.zero, updatedAt := GoTime.zero } :=
  ⟨by decide,
   (claimC2_name_indexed_order_invariant
      [("updated_at", Wire.time GoTime.zero), ("name", Wire.str "N"),
       ("id", Wire.float 7), ("created_at", Wire.time GoTime.zero),
       ("email", Wire.str "E")] 7 "E" "N" GoTime.zero GoTime.zero (by decide)).1⟩

/-- Counterexample to claim C4: on the cited positional fallback a non-nil
native-integer wire value for `room_type_id` is ignored (only a `float64`
is accepted), so the scanned optional is absent, not present. -/
theorem claimC4_counterexample :
    Ext.scanRoomPositional {}
      [Wire.float 1, Wire.str "A", Wire.str "", Wire.int 7, Wire.null, Wire.null]
      = .ok { id := 1, name := "A", description := "", roomTypeId := none } := by
  rfl

/-- Claim C4 as amended: a nil `room_type_id` wire value yields the absent
marker (never zero) on both strategies, and a non-nil `float64` yields a
present optional on both strategies; a non-nil native integer yields a
present optional on the name-indexed strategy but is ignored (left
absent) by the positional fallback. -/
theorem claimC4_amended (i f : Int) (nm d : String) :
    (Ext.scanRoomWithColumns {} [("room_type_id", Wire.null)]).roomTypeId = none ∧
    (Ext.scanRoomWithColumns {} [("room_type_id", Wire.float f)]).roomTypeId = some f ∧
    (Ext.scanRoomWithColumns {} [("room_type_id", Wire.int f)]).roomTypeId = some f ∧
    Ext.scanRoomPositional {}
        [Wire.float i, Wire.str nm, Wire.str d, Wire.null, Wire.null, Wire.null]
      = .ok { id := i, name := nm, description := d, roomTypeId := none } ∧
    Ext.scanRoomPositional {}
        [Wire.float i, Wire.str nm, Wire.str d, Wire.float f, Wire.null, Wire.null]
      = .ok { id := i, name := nm, description := d, roomTypeId := some f } ∧
    Ext.scanRoomPositional {}
        [Wire.float i, Wire.str nm, Wire.str d, Wire.int f, Wire.null, Wire.null]
      = .ok { id := i, name := nm, description := d, roomTypeId := none } :=
  ⟨rfl, rfl, rfl, rfl, rfl, rfl⟩

/-- Counterexample to claim C5: a string wire value feeding the integer
`id` field through the name-indexed scanners is not a type-mismatch
failure — the scan succeeds and the field silently keeps its zero value;
on the `scanner.go` revision even a native integer is ignored. -/
theorem claimC5_counterexample :
    scanUser (Handle.rows [("id", Wire.str "5")]) = .ok {} ∧
    Ext.scanUser (Handle.rows [("id", Wire.str "5")]) = .ok {} ∧
    scanUser (Handle.rows [("id", Wire.int 5)]) = .ok {} ∧
    ({} : UserRec).id = 0 ∧ ({} : Ext.UserRec).id = 0 :=
  ⟨rfl, rfl, rfl, rfl, rfl⟩

/-- Claim C5 as amended: through the name-indexed scanners an integer
field accepts a `float64` representation (converted to `int64`); the
`part_003` scanners additionally accept native integers while the
`scanner.go` user scanner does not; every other shape (e.g. a string) is
silently ignored, leaving the field at its zero value, rather than
failing. -/
theorem claimC5_amended (n : Int) (s : String) :
    scanUserWithColumns {} [("id", Wire.float n)] = { id := n } ∧
    Ext.scanUserWithColumns {} [("id", Wire.float n)] = { id := n } ∧
    Ext.scanUserWithColumns {} [("id", Wire.int n)] = { id := n } ∧
    scanUserWithColumns {} [("id", Wire.int n)] = {} ∧
    scanUserWithColumns {} [("id", Wire.str s)] = {} ∧
    Ext.scanUserWithColumns {} [("id", Wire.str s)] = {} :=
  ⟨rfl, rfl, rfl, rfl, rfl, rfl⟩

/-! ### Claim C9: ids routed through `float64` on the positional path -/

theorem bitLenAux_le {fuel j n : Nat} (h : n < 2 ^ j) : bitLenAux fuel n ≤ j := by
  induction fuel generalizing j n with
  | zero => simp [bitLenAux]
  | succ fuel ih =>
    rw [bitLenAux]
    split
    · exact Nat.zero_le j
    · rename_i hn
      have hj : j ≠ 0 := by
        rintro rfl
        simp only [pow_zero] at h
        omega
      obtain ⟨j', rfl⟩ : ∃ j', j = j' + 1 := ⟨j - 1, by omega⟩
      have hp : 2 ^ (j' + 1) = 2 * 2 ^ j' := by rw [Nat.pow_succ]; ring
      have h2 : n / 2 < 2 ^ j' := by omega
      exact Nat.succ_le_succ (ih h2)

theorem lt_two_pow_bitLenAux {fuel n : Nat} (h : n < 2 ^ fuel) :
    n < 2 ^ bitLenAux fuel n := by
  induction fuel generalizing n with
  | zero => simpa [bitLenAux] using h
  | succ fuel ih =>
    rw [bitLenAux]
    split
    · rename_i hn; simp [hn]
    · rename_i hn
      have hp : 2 ^ (fuel + 1) = 2 * 2 ^ fuel := by rw [Nat.pow_succ]; ring
      have h2 : n / 2 < 2 ^ fuel := by omega
      have h3 := ih h2
      have hp2 : 2 ^ (bitLenAux fuel (n / 2) + 1) = 2 * 2 ^ bitLenAux fuel (n / 2) := by
        rw [Nat.pow_succ]; ring
      omega

/-- A natural of the form `a * 2 ^ e` with `a < 2 ^ 53` (below `2 ^ 63`)
is a fixed point of binary64 rounding. -/
theorem rne53_of_repr {a e : Nat} (ha : a < 2 ^ 53) :
    rne53 (a * 2 ^ e) = a * 2 ^ e := by
  by_cases hb : bitLen64 (a * 2 ^ e) ≤ 53
  · simp [rne53, hb]
  · have hble : bitLen64 (a * 2 ^ e) ≤ 53 + e := by
      apply bitLenAux_le
      calc a * 2 ^ e < 2 ^ 53 * 2 ^ e :=
            (Nat.mul_lt_mul_right (Nat.pos_pow_of_pos e (by norm_num))).mpr ha
        _ = 2 ^ (53 + e) := by rw [← pow_add]
    have hk1 : 1 ≤ bitLen64 (a * 2 ^ e) - 53 := by omega
    have hke : bitLen64 (a * 2 ^ e) - 53 ≤ e := by omega
    have hdvd : 2 ^ (bitLen64 (a * 2 ^ e) - 53) ∣ a * 2 ^ e :=
      Dvd.dvd.mul_left (pow_dvd_pow 2 hke) a
    have hr : a * 2 ^ e % 2 ^ (bitLen64 (a * 2 ^ e) - 53) = 0 :=
      Nat.mod_eq_zero_of_dvd hdvd
    have hpos : 0 < 2 ^ (bitLen64 (a * 2 ^ e) - 53 - 1) :=
      Nat.pos_pow_of_pos _ (by norm_num)
    simp only [rne53, hb, if_false, hr]
    rw [if_neg (by omega)]
    exact Nat.div_mul_cancel hdvd

/-- Conversely, a fixed point of binary64 rounding below `2 ^ 63` is
exactly representable: small, or an exact multiple of a power of two with
a 53-bit quotient. -/
theorem repr_of_rne53_eq {m : Nat} (hm : m < 2 ^ 63) (h : rne53 m = m) :
    m < 2 ^ 53 ∨
      ∃ e, 1 ≤ e ∧ e ≤ 63 ∧ m % 2 ^ e = 0 ∧ m / 2 ^ e < 2 ^ 53 := by
  have hm64 : m < 2 ^ 64 := by
    calc m < 2 ^ 63 := hm
      _ < 2 ^ 64 := by norm_num
  by_cases hb : bitLen64 m ≤ 53
  · left
    calc m < 2 ^ bitLen64 m := lt_two_pow_bitLenAux hm64
      _ ≤ 2 ^ 53 := Nat.pow_le_pow_right (by norm_num) hb
  · right
    have hb63 : bitLen64 m ≤ 63 := bitLenAux_le hm
    have hk1 : 1 ≤ bitLen64 m - 53 := by omega
    have hmb : m < 2 ^ bitLen64 m := lt_two_pow_bitLenAux hm64
    have hpos : 0 < 2 ^ (bitLen64 m - 53) := Nat.pos_pow_of_pos _ (by norm_num)
    have hq : m / 2 ^ (bitLen64 m - 53) < 2 ^ 53 := by
      apply Nat.div_lt_of_lt_mul
      calc m < 2 ^ bitLen64 m := hmb
        _ = 2 ^ (bitLen64 m - 53) * 2 ^ 53 := by rw [← pow_add]; congr 1; omega
    refine ⟨bitLen64 m - 53, hk1, by omega, ?_, hq⟩
    unfold rne53 at h
    rw [if_neg hb] at h
    dsimp only at h
    have hdam := Nat.div_add_mod m (2 ^ (bitLen64 m - 53))
    have hmlt : m % 2 ^ (bitLen64 m - 53) < 2 ^ (bitLen64 m - 53) :=
      Nat.mod_lt _ hpos
    rw [Nat.mul_comm] at hdam
    split_ifs at h with hcond
    · rw [Nat.add_mul, one_mul] at h
      omega
    · omega

/-- What a true `isRepr64` means: the magnitude factors as `a * 2 ^ e`
with `a < 2 ^ 53`. -/
theorem isRepr64_true_spec {n : Int} (h : isRepr64 n = true) :
    ∃ a e : Nat, n.natAbs = a * 2 ^ e ∧ a < 2 ^ 53 := by
  unfold isRepr64 at h
  simp only [Bool.or_eq_true, decide_eq_true_eq, List.any_eq_true,
    List.mem_range, Bool.and_eq_true, beq_iff_eq] at h
  rcases h with h | ⟨e, _, hmod, hdiv⟩
  · exact ⟨n.natAbs, 0, by simp, h⟩
  · exact ⟨n.natAbs / 2 ^ e, e,
      (Nat.div_mul_cancel (Nat.dvd_of_mod_eq_zero hmod)).symm, hdiv⟩

theorem isRepr64_of_spec {n : Int}
    (h : n.natAbs < 2 ^ 53 ∨
      ∃ e, 1 ≤ e ∧ e ≤ 63 ∧ n.natAbs % 2 ^ e = 0 ∧ n.natAbs / 2 ^ e < 2 ^ 53) :
    isRepr64 n = true := by
  unfold isRepr64
  simp only [Bool.or_eq_true, decide_eq_true_eq, List.any_eq_true,
    List.mem_range, Bool.and_eq_true, beq_iff_eq]
  rcases h with h | ⟨e, _, _, h3, h4⟩
  · exact Or.inl h
  · exact Or.inr ⟨e, by omega, h3, h4⟩

/-- The signed conversion is the identity exactly when the unsigned
rounding is. -/
theorem f64ofInt_eq_iff {n : Int} : f64ofInt n = n ↔ rne53 n.natAbs = n.natAbs := by
  unfold f64ofInt
  split_ifs with hs <;>
    (constructor <;> intro h <;> omega)

/-- Claim C9: the positional path routes ids through an intermediate
`float64`; the round-trip is the identity for every id exactly
representable as a binary64 value (in particular every id of magnitude up
to `2 ^ 53`), while a non-representable id is silently altered — the scan
still succeeds, as the concrete row with id `2 ^ 53 + 1` (scanned to
`2 ^ 53`) shows. -/
theorem claimC9_positional_float64_roundtrip :
    (∀ n : Int, isRepr64 n = true → n.natAbs < 2 ^ 63 → f64ofInt n = n) ∧
    (∀ n : Int, n.natAbs ≤ 2 ^ 53 → f64ofInt n = n) ∧
    (∀ n : Int, isRepr64 n = false → n.natAbs < 2 ^ 63 → f64ofInt n ≠ n) ∧
    Ext.scanUser (Handle.row
        [Wire.int (2 ^ 53 + 1), Wire.str "u", Wire.null, Wire.null])
      = .ok { id := 2 ^ 53, externalID := "u" } := by
  refine ⟨?_, ?_, ?_, ?_⟩
  · intro n h _
    obtain ⟨a, e, hae, ha⟩ := isRepr64_true_spec h
    rw [f64ofInt_eq_iff, hae]
    exact rne53_of_repr ha
  · intro n h
    rw [f64ofInt_eq_iff]
    rcases Nat.lt_or_ge n.natAbs (2 ^ 53) with h1 | h1
    · have := rne53_of_repr (e := 0) h1
      simpa using this
    · have h2 : n.natAbs = 2 ^ 53 := by omega
      rw [h2]
      have := rne53_of_repr (a := 2 ^ 52) (e := 1) (by norm_num)
      norm_num at this
      simpa using this
  · intro n h hlt heq
    rw [f64ofInt_eq_iff] at heq
    have hr := isRepr64_of_spec (repr_of_rne53_eq hlt heq)
    rw [hr] at h
    cases h
  · rfl

/-- Witness for C9: `2 ^ 54 + 4` is representable and round-trips;
`2 ^ 53 + 1` is not and is altered. -/
theorem claimC9_witness :
    (isRepr64 (2 ^ 54 + 4) = true ∧ ((2 ^ 54 + 4 : Int)).natAbs < 2 ^ 63 ∧
      f64ofInt (2 ^ 54 + 4) = 2 ^ 54 + 4) ∧
    (isRepr64 (2 ^ 53 + 1) = false ∧ ((2 ^ 53 + 1 : Int)).natAbs < 2 ^ 63 ∧
      f64ofInt (2 ^ 53 + 1) ≠ 2 ^ 53 + 1) :=
  ⟨⟨by decide, by decide,
    claimC9_positional_float64_roundtrip.1 _ (by decide) (by decide)⟩,
   ⟨by decide, by decide,
    claimC9_positional_float64_roundtrip.2.2.1 _ (by decide) (by decide)⟩⟩

/-! ### Claims C1 and C10: the assignment pre-check and constraints -/

/-- `find?` by key returns the unique element carrying that key when the
keys of the list are distinct. -/
theorem find?_eq_of_key {α κ : Type} [DecidableEq κ] (key : α → κ) {l : List α}
    (hnd : (l.map key).Nodup) {a : α} (hm : a ∈ l) {k : κ} (hk : key a = k) :
    l.find? (fun x => key x == k) = some a := by
  induction l with
  | nil => cases hm
  | cons b tl ih =>
    rw [List.find?_cons]
    split
    · rename_i hb
      have hbk : key b = k := by simpa using hb
      rcases List.mem_cons.mp hm with rfl | htl
      · rfl
      · exfalso
        have hhead : key b ∉ tl.map key :=
          (List.nodup_cons.mp (by simpa using hnd)).1
        exact hhead (hbk.trans hk.symm ▸ List.mem_map_of_mem key htl)
    · rename_i hb
      rcases List.mem_cons.mp hm with rfl | htl
      · rw [hk] at hb
        simp at hb
      · exact ih (by simpa using (List.nodup_cons.mp (by simpa using hnd)).2) htl

/-- A zero pre-check count means no join row matches the pair. -/
theorem pairCount_zero_any {s : DB} {u r : Int} (h : pairCount s u r = 0) :
    (s.userRooms.any fun p => p.userId == u && p.roomId == r) = false := by
  rw [List.any_eq_false]
  intro p hp
  simp only [pairCount, List.length_eq_zero, List.filter_eq_nil_iff] at h
  exact fun hc => h p hp hc

/-- Claim C1: with the pair not yet assigned (and the ids present), the
first `assign` succeeds; the second fails via the application pre-check
with the already-assigned error, classified `Conflict`; the storage-level
unique constraint would likewise reject the insert; and the user's room
list afterwards holds exactly one entry for the room. -/
theorem claimC1_assign_twice_conflict (s : DB) (u r : Int) (t1 t2 : GoTime)
    (huser : userExistsB s u = true)
    (hroom : (s.rooms.filter fun rm => rm.id == r).length = 1)
    (hpair : pairCount s u r = 0) :
    ∃ s1, RoomRepository.AssignUserToRoom s u r t1 = .ok s1 ∧
      RoomRepository.AssignUserToRoom s1 u r t2 = .error .alreadyAssigned ∧
      RepoErr.kind .alreadyAssigned = .conflict ∧
      insertUserRoom s1 u r t2 = .error .uniqueViolation ∧
      ((RoomRepository.GetUserRooms s1 u).filter fun rm => rm.id == r).length = 1 := by
  have hany := pairCount_zero_any hpair
  have hroomex : roomExistsB s r = true := by
    have hne : (s.rooms.filter fun rm => rm.id == r) ≠ [] := by
      intro hnil
      rw [hnil] at hroom
      simp at hroom
    obtain ⟨rm, hrm⟩ := List.exists_mem_of_ne_nil _ hne
    have hmem := List.mem_filter.mp hrm
    exact List.any_eq_true.mpr ⟨rm, hmem.1, hmem.2⟩
  refine ⟨{ s with userRooms := s.userRooms ++ [(⟨u, r, t1⟩ : UserRoomRec)] }, ?_, ?_, rfl, ?_, ?_⟩
  · unfold RoomRepository.AssignUserToRoom insertUserRoom
    rw [if_neg (by omega : ¬ pairCount s u r > 0), hany]
    simp [huser, hroomex]
  · unfold RoomRepository.AssignUserToRoom
    have hcnt : pairCount { s with userRooms := s.userRooms ++ [(⟨u, r, t1⟩ : UserRoomRec)] } u r > 0 := by
      simp [pairCount, List.filter_append]
    rw [if_pos hcnt]
  · unfold insertUserRoom
    have hx : (({ s with userRooms := s.userRooms ++ [(⟨u, r, t1⟩ : UserRoomRec)] } : DB).userRooms.any
        fun p => p.userId == u && p.roomId == r) = true := by
      simp [List.any_append]
    rw [if_pos hx]
  · unfold RoomRepository.GetUserRooms
    rw [← List.countP_eq_length_filter,
      (List.perm_insertionSort RoomRepository.roomLe _).countP_eq,
      List.countP_filter]
    have hcongr : ∀ rm ∈ s.rooms,
        ((rm.id == r) &&
          ((s.userRooms ++ [(⟨u, r, t1⟩ : UserRoomRec)]).any fun p =>
            p.userId == u && p.roomId == rm.id)) = true
          ↔ (rm.id == r) = true := by
      intro rm _
      constructor
      · intro hc
        simp only [Bool.and_eq_true] at hc
        exact hc.1
      · intro hc
        have hid : rm.id = r := by simpa using hc
        have h2 : ((s.userRooms ++ [(⟨u, r, t1⟩ : UserRoomRec)]).any fun p =>
            p.userId == u && p.roomId == rm.id) = true := by
          simp [List.any_append, hid]
        simp [hc, h2]
    rw [List.countP_congr hcongr, List.countP_eq_length_filter]
    exact hroom


/-- Witness for C1 at a concrete one-user/one-room state. -/
theorem claimC1_witness :
    (userExistsB
      { users := [{ id := 1, email := "a@x", name := "A" }],
        rooms := [{ id := 2, name := "R" }], userRooms := [] } 1 = true) ∧
    ((({ users := [{ id := 1, email := "a@x", name := "A" }],
         rooms := [{ id := 2, name := "R" }], userRooms := [] } : DB)).rooms.filter
        (fun rm => rm.id == 2)).length = 1 ∧
    (pairCount
      { users := [{ id := 1, email := "a@x", name := "A" }],
        rooms := [{ id := 2, name := "R" }], userRooms := [] } 1 2 = 0) ∧
    (∃ s1, RoomRepository.AssignUserToRoom
      { users := [{ id := 1, email := "a@x", name := "A" }],
        rooms := [{ id := 2, name := "R" }], userRooms := [] } 1 2 GoTime.zero
        = .ok s1 ∧
      RoomRepository.AssignUserToRoom s1 1 2 GoTime.zero = .error .alreadyAssigned ∧
      RepoErr.kind .alreadyAssigned = .conflict ∧
      insertUserRoom s1 1 2 GoTime.zero = .error .uniqueViolation ∧
      ((RoomRepository.GetUserRooms s1 1).filter fun rm => rm.id == 2).length = 1) :=
  ⟨by decide, by decide, by decide,
   claimC1_assign_twice_conflict _ 1 2 GoTime.zero GoTime.zero
     (by decide) (by decide) (by decide)⟩

/-- Claim C10: `assign` checks no existence precondition of its own — with
the pair absent, missing ids surface only as the wrapped storage
foreign-key error (an internal error, not `NotFound`); with the pair
present the pre-check rejects regardless of id existence; and no error
`assign` can return is of kind `NotFound`. -/
theorem claimC10_assign_no_existence_check (s : DB) (u r : Int) (now : GoTime) :
    (pairCount s u r = 0 →
      (userExistsB s u = false ∨ roomExistsB s r = false) →
      RoomRepository.AssignUserToRoom s u r now
          = .error (.execFailed "assign user to room" .fkViolation) ∧
        RepoErr.kind (.execFailed "assign user to room" .fkViolation)
          = .internalError) ∧
    (0 < pairCount s u r →
      RoomRepository.AssignUserToRoom s u r now = .error .alreadyAssigned) ∧
    (∀ e, RoomRepository.AssignUserToRoom s u r now = .error e →
      e.kind ≠ .notFound) := by
  refine ⟨?_, ?_, ?_⟩
  · intro hp hex
    have hany := pairCount_zero_any hp
    refine ⟨?_, rfl⟩
    unfold RoomRepository.AssignUserToRoom insertUserRoom
    rw [if_neg (by omega : ¬ pairCount s u r > 0), hany]
    cases hu : userExistsB s u with
    | false => simp
    | true =>
      have hr : roomExistsB s r = false := by
        rcases hex with he | he
        · rw [hu] at he
          cases he
        · exact he
      simp [hr]
  · intro hp
    unfold RoomRepository.AssignUserToRoom
    rw [if_pos hp]
  · intro e he
    unfold RoomRepository.AssignUserToRoom at he
    dsimp only at he
    split_ifs at he with hc
    · simp only [Except.error.injEq] at he
      subst he
      decide
    · cases hins : insertUserRoom s u r now with
      | ok s1 =>
        rw [hins] at he
        cases he
      | error e1 =>
        rw [hins] at he
        simp only [Except.error.injEq] at he
        subst he
        cases e1 <;> decide

/-- Witness for C10: on the empty database the insert is rejected by the
foreign keys, not by a not-found check. -/
theorem claimC10_witness :
    (pairCount ({} : DB) 1 2 = 0) ∧
    (userExistsB ({} : DB) 1 = false ∨ roomExistsB ({} : DB) 2 = false) ∧
    (RoomRepository.AssignUserToRoom ({} : DB) 1 2 GoTime.zero
        = .error (.execFailed "assign user to room" .fkViolation) ∧
      RepoErr.kind (.execFailed "assign user to room" .fkViolation)
        = .internalError) :=
  ⟨by decide, Or.inl (by decide),
   (claimC10_assign_no_existence_check ({} : DB) 1 2 GoTime.zero).1 (by decide)
     (Or.inl (by decide))⟩

/-! ### Claim C6: partial update semantics -/

/-- Claim C6: `Update` treats empty strings and non-positive capacity as
absent (those fields are preserved; present fields are replaced),
refreshes `updated_at` unconditionally, leaves `created_at`, the id, the
other tables and the other rows untouched, and fails with the not-found
error exactly when no row matched the id. -/
theorem claimC6_partial_update (s : DB) (id : Int)
    (req : RoomRepository.UpdateRoomRequest) (now : GoTime)
    (hnd : (s.rooms.map RoomRec.id).Nodup) :
    ((∀ rm ∈ s.rooms, rm.id ≠ id) →
      RoomRepository.Update s id req now = .error .roomNotFound ∧
      RepoErr.kind .roomNotFound = .notFound) ∧
    (∀ rm ∈ s.rooms, rm.id = id →
      ∃ s1, RoomRepository.Update s id req now
          = .ok (RoomRepository.applyRoomUpdate req now rm, s1) ∧
        (RoomRepository.applyRoomUpdate req now rm).updatedAt = now ∧
        (RoomRepository.applyRoomUpdate req now rm).id = rm.id ∧
        (RoomRepository.applyRoomUpdate req now rm).createdAt = rm.createdAt ∧
        (req.name = "" → (RoomRepository.applyRoomUpdate req now rm).name = rm.name) ∧
        (req.name ≠ "" → (RoomRepository.applyRoomUpdate req now rm).name = req.name) ∧
        (req.description = "" →
          (RoomRepository.applyRoomUpdate req now rm).description = rm.description) ∧
        (req.description ≠ "" →
          (RoomRepository.applyRoomUpdate req now rm).description = req.description) ∧
        (req.capacity ≤ 0 →
          (RoomRepository.applyRoomUpdate req now rm).capacity = rm.capacity) ∧
        (0 < req.capacity →
          (RoomRepository.applyRoomUpdate req now rm).capacity = req.capacity) ∧
        s1.users = s.users ∧ s1.userRooms = s.userRooms ∧
        (∀ other ∈ s.rooms, other.id ≠ id → other ∈ s1.rooms)) := by
  constructor
  · intro hnone
    refine ⟨?_, rfl⟩
    have haff : (s.rooms.filter fun r => r.id == id).length = 0 := by
      rw [List.length_eq_zero, List.filter_eq_nil_iff]
      intro a ha
      simpa using hnone a ha
    unfold RoomRepository.Update
    simp [haff]
  · intro rm hm hid
    have hgid : ∀ r : RoomRec,
        (if r.id == id then RoomRepository.applyRoomUpdate req now r else r).id
          = r.id := by
      intro r
      split <;> rfl
    refine ⟨{ s with rooms := s.rooms.map fun r =>
        if r.id == id then RoomRepository.applyRoomUpdate req now r else r },
      ?_, rfl, rfl, rfl, ?_, ?_, ?_, ?_, ?_, ?_, rfl, rfl, ?_⟩
    · have hmemf : rm ∈ s.rooms.filter (fun r => r.id == id) :=
        List.mem_filter.mpr ⟨hm, by simp [hid]⟩
      have hpos : 0 < (s.rooms.filter fun r => r.id == id).length :=
        List.length_pos_of_mem hmemf
      have hfind : (s.rooms.map fun r =>
          if r.id == id then RoomRepository.applyRoomUpdate req now r else r).find?
            (fun x => x.id == id)
          = some (RoomRepository.applyRoomUpdate req now rm) := by
        have hnd2 : ((s.rooms.map fun r =>
            if r.id == id then RoomRepository.applyRoomUpdate req now r else r).map
              RoomRec.id).Nodup := by
          rw [List.map_map]
          have : ∀ a ∈ s.rooms, (RoomRec.id ∘ fun r =>
              if r.id == id then RoomRepository.applyRoomUpdate req now r else r) a
                = RoomRec.id a := fun a _ => hgid a
          rw [List.map_congr_left this]
          exact hnd
        have hmem2 : RoomRepository.applyRoomUpdate req now rm ∈
            s.rooms.map fun r =>
              if r.id == id then RoomRepository.applyRoomUpdate req now r else r := by
          have := List.mem_map_of_mem
            (fun r => if r.id == id then RoomRepository.applyRoomUpdate req now r else r)
            hm
          simpa [hid] using this
        exact find?_eq_of_key RoomRec.id hnd2 hmem2 hid
      unfold RoomRepository.Update RoomRepository.GetByID
      rw [if_neg (by simpa using hpos.ne')]
      dsimp only
      rw [hfind]
    · intro h
      simp [RoomRepository.applyRoomUpdate, h]
    · intro h
      simp [RoomRepository.applyRoomUpdate, h]
    · intro h
      simp [RoomRepository.applyRoomUpdate, h]
    · intro h
      simp [RoomRepository.applyRoomUpdate, h]
    · intro h
      show (if req.capacity > 0 then req.capacity else rm.capacity) = rm.capacity
      rw [if_neg (by omega)]
    · intro h
      simp [RoomRepository.applyRoomUpdate, h]
    · intro other hmem hne
      have : (if other.id == id then RoomRepository.applyRoomUpdate req now other
          else other) = other := by
        rw [if_neg (by simpa using hne)]
      rw [← this]
      exact List.mem_map_of_mem _ hmem

/-- Witness for C6: a concrete update with an empty name, a present
description and a non-positive capacity preserves name and capacity,
replaces the description and refreshes `updated_at`; an unmatched id
fails not-found. -/
theorem claimC6_witness :
    (((({ rooms := [{ id := 4, name := "Old", description := "od", capacity := 3 }] } : DB)).rooms.map
        RoomRec.id).Nodup) ∧
    (∃ s1, RoomRepository.Update
        { rooms := [{ id := 4, name := "Old", description := "od", capacity := 3 }] } 4
        { description := "new" } { GoTime.zero with year := 2 }
        = .ok (RoomRepository.applyRoomUpdate { description := "new" }
            { GoTime.zero with year := 2 }
            { id := 4, name := "Old", description := "od", capacity := 3 }, s1)) ∧
    RoomRepository.applyRoomUpdate { description := "new" } { GoTime.zero with year := 2 }
        { id := 4, name := "Old", description := "od", capacity := 3 }
      = { id := 4, name := "Old", description := "new", capacity := 3,
          updatedAt := { GoTime.zero with year := 2 } } ∧
    RoomRepository.Update
        { rooms := [{ id := 4, name := "Old", description := "od", capacity := 3 }] } 9
        { description := "new" } GoTime.zero = .error .roomNotFound := by
  refine ⟨by decide, ?_, by decide, ?_⟩
  · obtain ⟨s1, hs1, -⟩ :=
      (claimC6_partial_update
        { rooms := [{ id := 4, name := "Old", description := "od", capacity := 3 }] } 4
        { description := "new" } { GoTime.zero with year := 2 } (by decide)).2
        { id := 4, name := "Old", description := "od", capacity := 3 }
        (by decide) (by decide)
    exact ⟨s1, hs1⟩
  · exact ((claimC6_partial_update
      { rooms := [{ id := 4, name := "Old", description := "od", capacity := 3 }] } 9
      { description := "new" } GoTime.zero (by decide)).1 (by decide)).1

/-! ### Claim C7: a room with its assigned users -/

/-- Counterexample to claim C7: the assigned users come back ordered by
`name` (`ORDER BY u.name`), not by the unique external identifier — here
the emails of the returned users are in strictly decreasing order. -/
theorem claimC7_counterexample :
    RoomRepository.GetRoomWithUsers
      { users := [⟨1, "z@x", "Alice", GoTime.zero, GoTime.zero⟩,
                  ⟨2, "a@x", "Bob", GoTime.zero, GoTime.zero⟩],
        rooms := [⟨10, "R", "", 0, GoTime.zero, GoTime.zero⟩],
        userRooms := [⟨1, 10, GoTime.zero⟩, ⟨2, 10, GoTime.zero⟩] } 10
      = .ok ⟨⟨10, "R", "", 0, GoTime.zero, GoTime.zero⟩,
             [⟨1, "z@x", "Alice", GoTime.zero, GoTime.zero⟩,
              ⟨2, "a@x", "Bob", GoTime.zero, GoTime.zero⟩]⟩ ∧
    ¬ (("z@x" : String) ≤ "a@x") := by
  constructor
  · decide
  · rw [String.le_iff_toList_le]
    decide

/-- Claim C7 as amended: `roomWithUsers` fails with the not-found error
exactly when the room does not exist; on success it returns the room with
every assigned user, the users ordered by the user's name, and an empty
user collection (not an error) when the room has no assignments. -/
theorem claimC7_amended (s : DB) (rid : Int) :
    ((RoomRepository.GetRoomWithUsers s rid).isOk = true
      ↔ ∃ rm ∈ s.rooms, rm.id = rid) ∧
    (RoomRepository.GetRoomWithUsers s rid = .error .roomNotFound
      ↔ ∀ rm ∈ s.rooms, rm.id ≠ rid) ∧
    RepoErr.kind .roomNotFound = .notFound ∧
    (∀ out, RoomRepository.GetRoomWithUsers s rid = .ok out →
      out.room ∈ s.rooms ∧ out.room.id = rid ∧
      out.users.Sorted RoomRepository.userLe ∧
      (∀ u, u ∈ out.users ↔ u ∈ s.users ∧
        ∃ p ∈ s.userRooms, p.roomId = rid ∧ p.userId = u.id) ∧
      ((∀ p ∈ s.userRooms, p.roomId ≠ rid) → out.users = [])) := by
  cases hf : s.rooms.find? (fun r => r.id == rid) with
  | none =>
    have hnone : ∀ rm ∈ s.rooms, rm.id ≠ rid := by
      intro rm hm
      simpa using List.find?_eq_none.mp hf rm hm
    have heq : RoomRepository.GetRoomWithUsers s rid = .error .roomNotFound := by
      unfold RoomRepository.GetRoomWithUsers RoomRepository.GetByID
      rw [hf]
    refine ⟨?_, ?_, rfl, ?_⟩
    · rw [heq]
      constructor
      · intro hc
        simp [Except.isOk, Except.toBool] at hc
      · rintro ⟨rm, hm, hid⟩
        exact absurd hid (hnone rm hm)
    · rw [heq]
      exact ⟨fun _ => hnone, fun _ => rfl⟩
    · intro out hout
      rw [heq] at hout
      cases hout
  | some rm =>
    have hmem : rm ∈ s.rooms := List.mem_of_find?_eq_some hf
    have hid : rm.id = rid := by simpa using List.find?_some hf
    have heq : RoomRepository.GetRoomWithUsers s rid
        = .ok ⟨rm, List.insertionSort RoomRepository.userLe
            (s.users.filter fun u =>
              s.userRooms.any fun p => p.roomId == rid && p.userId == u.id)⟩ := by
      unfold RoomRepository.GetRoomWithUsers RoomRepository.GetByID
      rw [hf]
    refine ⟨?_, ?_, rfl, ?_⟩
    · rw [heq]
      exact ⟨fun _ => ⟨rm, hmem, hid⟩, fun _ => rfl⟩
    · rw [heq]
      constructor
      · intro hc
        cases hc
      · intro hall
        exact absurd hid (hall rm hmem)
    · intro out hout
      rw [heq] at hout
      simp only [Except.ok.injEq] at hout
      subst hout
      refine ⟨hmem, hid, List.sorted_insertionSort _ _, ?_, ?_⟩
      · intro u
        rw [List.mem_insertionSort, List.mem_filter]
        simp
      · intro hnop
        have hfil : (s.users.filter fun u =>
            s.userRooms.any fun p => p.roomId == rid && p.userId == u.id) = [] := by
          rw [List.filter_eq_nil_iff]
          intro u _
          rw [Bool.not_eq_true, List.any_eq_false]
          intro p hp
          simp only [Bool.and_eq_true, beq_iff_eq, not_and]
          intro hr
          exact absurd hr (hnop p hp)
        rw [hfil]
        rfl

/-- Witness for C7 (amended) at a concrete state: success with the room
and, for a room with no assignments, an empty (non-error) user list. -/
theorem claimC7_witness :
    (RoomRepository.GetRoomWithUsers
        { users := [⟨1, "z@x", "Alice", GoTime.zero, GoTime.zero⟩],
          rooms := [⟨10, "R", "", 0, GoTime.zero, GoTime.zero⟩],
          userRooms := [] } 10
      = .ok ⟨⟨10, "R", "", 0, GoTime.zero, GoTime.zero⟩, []⟩) ∧
    (∀ out, RoomRepository.GetRoomWithUsers
        { users := [⟨1, "z@x", "Alice", GoTime.zero, GoTime.zero⟩],
          rooms := [⟨10, "R", "", 0, GoTime.zero, GoTime.zero⟩],
          userRooms := [] } 10 = .ok out → out.users = []) :=
  ⟨by decide, fun out hout =>
    ((claimC7_amended
      { users := [⟨1, "z@x", "Alice", GoTime.zero, GoTime.zero⟩],
        rooms := [⟨10, "R", "", 0, GoTime.zero, GoTime.zero⟩],
        userRooms := [] } 10).2.2.2 out hout).2.2.2.2 (by decide)⟩

/-! ### Claim C8: deleting a RoomType detaches, never deletes, rooms -/

/-- Claim C8: deleting an existing RoomType succeeds and leaves every room
present (same row count; every surviving row comes from an original row);
a room that referenced the deleted type keeps all its data with the
reference cleared to absent, and a subsequent get of any room succeeds —
showing the cleared reference where it pointed at the deleted type and
the untouched row otherwise; no row of the type remains. -/
theorem claimC8_roomtype_delete_set_null (s : Ext.DB) (tid : Int)
    (hnd : (s.rooms.map Ext.RoomRec.id).Nodup)
    (hex : ∃ t ∈ s.roomTypes, t.id = tid) :
    ∃ s1, Ext.RoomTypeRepository.Delete s tid = .ok s1 ∧
      s1.rooms.length = s.rooms.length ∧
      (∀ r ∈ s.rooms, r.roomTypeId = some tid →
        Ext.RoomRepository.GetByID s1 r.id = .ok { r with roomTypeId := none }) ∧
      (∀ r ∈ s.rooms, r.roomTypeId ≠ some tid →
        Ext.RoomRepository.GetByID s1 r.id = .ok r) ∧
      (∀ r1 ∈ s1.rooms, ∃ r ∈ s.rooms,
        r1 = if r.roomTypeId = some tid then { r with roomTypeId := none } else r) ∧
      (∀ t ∈ s1.roomTypes, t.id ≠ tid) := by
  obtain ⟨t0, ht0, htid⟩ := hex
  have haff : 0 < (s.roomTypes.filter fun t => t.id == tid).length :=
    List.length_pos_of_mem (List.mem_filter.mpr ⟨ht0, by simp [htid]⟩)
  have hgid : ∀ r : Ext.RoomRec,
      (if r.roomTypeId == some tid then { r with roomTypeId := none } else r).id
        = r.id := by
    intro r
    split <;> rfl
  have hnd2 : ((s.rooms.map fun r =>
      if r.roomTypeId == some tid then { r with roomTypeId := none } else r).map
        Ext.RoomRec.id).Nodup := by
    rw [List.map_map]
    have : ∀ a ∈ s.rooms, (Ext.RoomRec.id ∘ fun r =>
        if r.roomTypeId == some tid then { r with roomTypeId := none } else r) a
          = Ext.RoomRec.id a := fun a _ => hgid a
    rw [List.map_congr_left this]
    exact hnd
  refine ⟨{ rooms := s.rooms.map fun r =>
              if r.roomTypeId == some tid then { r with roomTypeId := none } else r,
            roomTypes := s.roomTypes.filter fun t => !(t.id == tid) },
    ?_, ?_, ?_, ?_, ?_, ?_⟩
  · unfold Ext.RoomTypeRepository.Delete
    rw [if_neg (by simpa using haff.ne')]
  · exact List.length_map _ _
  · intro r hm hr
    have hmem2 : ({ r with roomTypeId := none } : Ext.RoomRec) ∈
        s.rooms.map fun r =>
          if r.roomTypeId == some tid then { r with roomTypeId := none } else r := by
      have := List.mem_map_of_mem
        (fun r => if r.roomTypeId == some tid then { r with roomTypeId := none } else r)
        hm
      simpa [hr] using this
    unfold Ext.RoomRepository.GetByID
    rw [find?_eq_of_key Ext.RoomRec.id hnd2 hmem2 rfl]
  · intro r hm hr
    have hmem2 : r ∈ s.rooms.map fun r =>
        if r.roomTypeId == some tid then { r with roomTypeId := none } else r := by
      have := List.mem_map_of_mem
        (fun r => if r.roomTypeId == some tid then { r with roomTypeId := none } else r)
        hm
      simpa [hr] using this
    unfold Ext.RoomRepository.GetByID
    rw [find?_eq_of_key Ext.RoomRec.id hnd2 hmem2 rfl]
  · intro r1 hm1
    obtain ⟨r, hm, hr⟩ := List.mem_map.mp hm1
    refine ⟨r, hm, ?_⟩
    rw [← hr]
    by_cases hc : r.roomTypeId = some tid
    · rw [if_pos (by simpa using hc), if_pos hc]
    · rw [if_neg (by simpa using hc), if_neg hc]
  · intro t htm
    have := List.mem_filter.mp htm
    simpa using this.2

/-- Witness for C8: delete RoomType 1; Room 5, which referenced it, is
still there with the reference absent. -/
theorem claimC8_witness :
    ((({ rooms := [⟨5, "C", "", some 1, GoTime.zero, GoTime.zero⟩],
             roomTypes := [⟨1, "large", "modern", GoTime.zero, GoTime.zero⟩] } : Ext.DB)).rooms.map
        Ext.RoomRec.id).Nodup ∧
    (∃ t ∈ (({ rooms := [⟨5, "C", "", some 1, GoTime.zero, GoTime.zero⟩],
                   roomTypes := [⟨1, "large", "modern", GoTime.zero, GoTime.zero⟩] } : Ext.DB)).roomTypes,
      t.id = 1) ∧
    (∃ s1, Ext.RoomTypeRepository.Delete
        { rooms := [⟨5, "C", "", some 1, GoTime.zero, GoTime.zero⟩],
              roomTypes := [⟨1, "large", "modern", GoTime.zero, GoTime.zero⟩] } 1 = .ok s1 ∧
      s1.rooms.length = 1 ∧
      Ext.RoomRepository.GetByID s1 5
        = .ok ⟨5, "C", "", none, GoTime.zero, GoTime.zero⟩) := by
  refine ⟨by decide, ⟨⟨1, "large", "modern", GoTime.zero, GoTime.zero⟩, by decide, rfl⟩, ?_⟩
  obtain ⟨s1, hdel, hlen, hget, -⟩ :=
    claimC8_roomtype_delete_set_null
      { rooms := [⟨5, "C", "", some 1, GoTime.zero, GoTime.zero⟩],
            roomTypes := [⟨1, "large", "modern", GoTime.zero, GoTime.zero⟩] } 1
      (by decide) ⟨⟨1, "large", "modern", GoTime.zero, GoTime.zero⟩, by decide, rfl⟩
  exact ⟨s1, hdel, hlen, hget ⟨5, "C", "", some 1, GoTime.zero, GoTime.zero⟩ (by decide) rfl⟩

end CloudflareDB
